import Mathlib

/-!
Shallow embedding of `src/unlock_indicator.c` (i3lock unlock-indicator renderer)
together with proofs about it.

Byte buffers are modelled as total functions `Nat → Nat` (memory), so that
every write of the C code becomes a `writeMem`, and "no write beyond
position p" is an honest pointwise statement.  The glyph text of the
indicator is read from such a buffer the way `cairo_show_text` reads a C
string: the bytes up to the first NUL, scanning at most the 256 bytes
allocated at the call site.
-/

namespace I3lock

/-- Modelled from the spec: `unlock_state_t` is declared in
`unlock_indicator.h`, which is not part of the source tree here.  Section 3
of the spec lists the states `Started | KeyPressed | NothingToDelete`; the C
code compares them by declaration order (`unlock_state >= STATE_KEY_PRESSED`,
`unlock_state < STATE_KEY_PRESSED`), which `code` reproduces. -/
inductive unlock_state_t where
  | STATE_STARTED
  | STATE_KEY_PRESSED
  | STATE_NOTHING_TO_DELETE
  deriving DecidableEq

/-- Declaration-order code of an `unlock_state_t`, for the C `<`/`>=` enum
comparisons. -/
def unlock_state_t.code : unlock_state_t → Nat
  | .STATE_STARTED => 0
  | .STATE_KEY_PRESSED => 1
  | .STATE_NOTHING_TO_DELETE => 2

/-- Modelled from the spec: `auth_state_t` is declared in
`unlock_indicator.h`, which is not part of the source tree here.  Section 3
of the spec lists `Idle | Verifying | Locking | WrongPassword | LockFailed`,
matching the five cases the C switch distinguishes. -/
inductive auth_state_t where
  | STATE_AUTH_IDLE
  | STATE_AUTH_VERIFY
  | STATE_AUTH_LOCK
  | STATE_AUTH_WRONG
  | STATE_I3LOCK_LOCK_FAILED
  deriving DecidableEq

/-- Declaration-order code of an `auth_state_t`, for the C
`auth_state > STATE_AUTH_IDLE` comparison. -/
def auth_state_t.code : auth_state_t → Nat
  | .STATE_AUTH_IDLE => 0
  | .STATE_AUTH_VERIFY => 1
  | .STATE_AUTH_LOCK => 2
  | .STATE_AUTH_WRONG => 3
  | .STATE_I3LOCK_LOCK_FAILED => 4

open unlock_state_t auth_state_t

/-- Write one byte at position `p` of a memory. -/
def writeMem (mem : Nat → Nat) (p v : Nat) : Nat → Nat :=
  fun q => if q = p then v else mem q

/-- Write a list of bytes starting at position `p` (the model of `strcpy`
including its NUL terminator when the list ends with `0`). -/
def writeBytes (mem : Nat → Nat) (p : Nat) : List Nat → (Nat → Nat)
  | [] => mem
  | b :: bs => writeBytes (writeMem mem p b) (p + 1) bs

/-- The backward copy loop of `string_repeat`
(`while (pa>=dest) *pa-- = *pb--;` with `pb = pa + slen` throughout):
`backCopy slen i mem` performs, in this order, the writes
`mem[i-1] := mem[i-1+slen]`, `mem[i-2] := mem[i-2+slen]`, …, `mem[0] := mem[slen]`. -/
def backCopy (slen : Nat) : Nat → (Nat → Nat) → (Nat → Nat)
  | 0, mem => mem
  | i + 1, mem => backCopy slen i (writeMem mem i (mem (i + slen)))

/-- The function `string_repeat(dest, str, n)` from `src/unlock_indicator.c` lines 87–98:
if `n <= 0` return at once; clamp `n` to 64; `strcpy` the glyph (with its
NUL) into the last of the `n` slots, then copy backwards byte by byte.
`dest` is the buffer starting at offset 0 of the memory. -/
def string_repeat (dest : Nat → Nat) (str : List Nat) (n : Int) : Nat → Nat :=
  if n ≤ 0 then dest
  else
    let n' : Nat := if 64 ≤ n then 64 else n.toNat
    let slen := str.length
    backCopy slen ((n' - 1) * slen) (writeBytes dest ((n' - 1) * slen) (str ++ [0]))

/-- The UTF-8 bytes of the status dot glyph `"•"` (U+2022). -/
def bullet : List Nat := [0xE2, 0x80, 0xA2]

/-- The number of glyph copies `string_repeat` actually lays down for a
requested count `n`: none for `n ≤ 0`, at most 64 otherwise. -/
def clampCount (n : Int) : Nat :=
  if n ≤ 0 then 0 else if 64 ≤ n then 64 else n.toNat

/-- Read a NUL-terminated byte string from `mem` starting at `i`, scanning at
most `fuel` bytes. -/
def cstrAux (mem : Nat → Nat) : Nat → Nat → List Nat
  | _, 0 => []
  | i, fuel + 1 => if mem i = 0 then [] else mem i :: cstrAux mem (i + 1) fuel

/-- The C string `cairo_show_text` reads out of the 256-byte `text` buffer
allocated in `draw_image`. -/
def textOf (mem : Nat → Nat) : List Nat := cstrAux mem 0 256

/-- The value `strtol` gives to one valid hexadecimal digit character
(byte value of `0`–`9`, `a`–`f` or `A`–`F`). -/
def hexDigitVal (c : Nat) : Nat :=
  if 48 ≤ c ∧ c ≤ 57 then c - 48
  else if 97 ≤ c ∧ c ≤ 102 then c - 87
  else if 65 ≤ c ∧ c ≤ 70 then c - 55
  else 0

/-- The byte is a valid hexadecimal digit character. -/
def isHexDigit (c : Nat) : Prop :=
  (48 ≤ c ∧ c ≤ 57) ∨ (97 ≤ c ∧ c ≤ 102) ∨ (65 ≤ c ∧ c ≤ 70)

instance (c : Nat) : Decidable (isHexDigit c) := by
  unfold isHexDigit; infer_instance

/-- The value of `strtol(strgroup, NULL, 16)` on one two-character group of the color
string (lines 123–128). -/
def parseGroup (c1 c2 : Nat) : Nat := 16 * hexDigitVal c1 + hexDigitVal c2

/-- Lines 123–129: split the 6-character color string into three 2-character
groups, parse each base 16, and divide by 255 to get the RGB fractions fed to
`cairo_set_source_rgb`. -/
def parseColor (color : List Nat) : ℚ × ℚ × ℚ :=
  (parseGroup (color.getD 0 0) (color.getD 1 0) / 255,
   parseGroup (color.getD 2 0) (color.getD 3 0) / 255,
   parseGroup (color.getD 4 0) (color.getD 5 0) / 255)

/-- One entry of `xr_resolutions`: a screen rectangle. -/
structure Rect where
  x : Int
  y : Int
  width : Nat
  height : Nat
  deriving DecidableEq

/-- Lines 194–218 of `draw_image`: compute
`((screen_center_x, screen_center_y), (screen_offset_x, screen_offset_y))`
from the screen list (`xr_resolutions`, with `xr_screens` its length), the
requested screen index `show_on_screen` and the root-window resolution
`last_resolution`. -/
def resolvePlacement (xr_resolutions : List Rect) (show_on_screen : Int)
    (last_resolution : Nat × Nat) : (Nat × Nat) × (Int × Int) :=
  if 0 < xr_resolutions.length then
    let selected_screen :=
      if 0 ≤ show_on_screen ∧ show_on_screen < xr_resolutions.length
      then show_on_screen.toNat else 0
    let r := xr_resolutions.getD selected_screen ⟨0, 0, 0, 0⟩
    ((r.width / 2, r.height / 2), (r.x, r.y))
  else
    ((last_resolution.1 / 2, last_resolution.2 / 2), (0, 0))

/-- The shared mutable state `draw_image` reads (the extern/static variables
of `unlock_indicator.c` plus the resolution argument and the DPI query). -/
structure RenderState where
  input_position : Int
  last_input_position : Int
  unlock_state : unlock_state_t
  auth_state : auth_state_t
  unlock_indicator : Bool
  show_on_screen : Int
  last_resolution : Nat × Nat
  xr_resolutions : List Rect
  color : List Nat
  img : Bool
  tile : Bool
  dpi : ℚ

/-- The indicator overlay part of a rendered frame: the scale factor, the C
string handed to `cairo_show_text`, the text color, and the placement it is
centered on. -/
structure Overlay where
  scale : ℚ
  text : List Nat
  text_color : ℚ × ℚ × ℚ
  center : Nat × Nat
  offset : Int × Int
  deriving DecidableEq

/-- Abstract contents of the backing pixmap after one `draw_image` call.
`draw_image` first clears the whole pixmap to the background color
(lines 120–131), so the resulting contents are exactly a deterministic
rendering of this description — they do not depend on the pixmap's previous
contents. -/
structure Frame where
  resolution : Nat × Nat
  bg : ℚ × ℚ × ℚ
  image : Option Bool
  overlay : Option Overlay
  deriving DecidableEq

/-- Lines 157–163 of `draw_image`: `text` is the 256-byte `malloc` buffer
(modelled as the start of `mem`); it is first set to the empty string
(`strcpy(text, "")`), then filled by `string_repeat` with the dot glyph,
repeated `last_input_position` times when the auth state is
`STATE_AUTH_WRONG` or `STATE_I3LOCK_LOCK_FAILED` and `input_position` times
otherwise. -/
def indicatorText (auth_state : auth_state_t) (input_position last_input_position : Int)
    (mem : Nat → Nat) : Nat → Nat :=
  let text := writeBytes mem 0 [0]
  if auth_state = STATE_AUTH_WRONG ∨ auth_state = STATE_I3LOCK_LOCK_FAILED then
    string_repeat text bullet last_input_position
  else
    string_repeat text bullet input_position

/-- The renderer `draw_image(bg_pixmap, resolution)`, lines 105–237, as a function from
the shared state (plus the junk contents `mem` of the `malloc`ed text
buffer) to the abstract frame drawn onto the pixmap and the new value of the
static `last_input_position`.  The cairo calls are abstracted into the
`Frame`/`Overlay` description; everything data-dependent is kept. -/
def draw_image (s : RenderState) (mem : Nat → Nat) : Frame × Int :=
  let scaling_factor : ℚ := s.dpi / 96
  let bg := parseColor s.color
  let image : Option Bool := if s.img then some s.tile else none
  if s.unlock_indicator ∧
      (STATE_KEY_PRESSED.code ≤ s.unlock_state.code ∨
        STATE_AUTH_IDLE.code < s.auth_state.code) then
    -- lines 151–152
    let last_input_position :=
      if 0 < s.input_position then s.input_position else s.last_input_position
    -- lines 157–163
    let text1 := indicatorText s.auth_state s.input_position last_input_position mem
    -- the switch on auth_state, lines 169–189: text color, and the forced
    -- empty text on STATE_NOTHING_TO_DELETE in the default branch
    let ct : (ℚ × ℚ × ℚ) × (Nat → Nat) :=
      match s.auth_state with
      | STATE_AUTH_VERIFY => ((84 / 255, 110 / 255, 122 / 255), text1)
      | STATE_AUTH_LOCK => ((84 / 255, 110 / 255, 122 / 255), text1)
      | STATE_AUTH_WRONG =>
          (if s.unlock_state.code < STATE_KEY_PRESSED.code
           then (255 / 255, 83 / 255, 112 / 255) else (1, 1, 1), text1)
      | STATE_I3LOCK_LOCK_FAILED => ((255 / 255, 83 / 255, 112 / 255), text1)
      | STATE_AUTH_IDLE =>
          ((1, 1, 1),
           if s.unlock_state = STATE_NOTHING_TO_DELETE
           then writeBytes text1 0 [0] else text1)
    -- lines 194–218
    let place := resolvePlacement s.xr_resolutions s.show_on_screen s.last_resolution
    ({ resolution := s.last_resolution, bg := bg, image := image,
       overlay := some
         { scale := scaling_factor, text := textOf ct.2, text_color := ct.1,
           center := place.1, offset := place.2 } },
     last_input_position)
  else
    ({ resolution := s.last_resolution, bg := bg, image := image, overlay := none },
     s.last_input_position)

/-- The backing pixmap: `XCB_NONE` is `none`; an allocated pixmap remembers
the resolution `create_bg_pixmap` was given. -/
structure Pixmap where
  width : Nat
  height : Nat
  deriving DecidableEq

/-- The invalidation operation `free_bg_pixmap` (lines 246–249): release the pixmap and reset the handle
to `XCB_NONE`. -/
def free_bg_pixmap (bg_pixmap : Option Pixmap) : Option Pixmap := none

/-- The orchestrator `redraw_screen` (lines 255–268) restricted to its data effects: if the
cached handle is `XCB_NONE`, allocate a pixmap at the current resolution,
otherwise keep the cached one; then run `draw_image` on it.  Returns the new
cached handle, the frame drawn into the pixmap, and the new
`last_input_position`. -/
def redraw_screen (bg_pixmap : Option Pixmap) (s : RenderState) (mem : Nat → Nat) :
    Option Pixmap × Frame × Int :=
  let bg : Option Pixmap :=
    match bg_pixmap with
    | none => some ⟨s.last_resolution.1, s.last_resolution.2⟩
    | some p => some p
  let di := draw_image s mem
  (bg, di.1, di.2)

/-- The glyph sequence a frame displays: the overlay's text, if any. -/
def frameGlyphs (f : Frame) : List Nat :=
  match f.overlay with
  | none => []
  | some o => o.text

/-- The text color a frame's overlay uses, if the overlay is drawn. -/
def frameTextColor (f : Frame) : Option (ℚ × ℚ × ℚ) :=
  match f.overlay with
  | none => none
  | some o => some o.text_color

/-! ### Helper lemmas -/

theorem writeBytes_spec (bs : List Nat) (mem : Nat → Nat) (p q : Nat) :
    writeBytes mem p bs q =
      if p ≤ q ∧ q < p + bs.length then bs.getD (q - p) 0 else mem q := by
  induction bs generalizing mem p with
  | nil =>
    simp only [writeBytes, List.length_nil, Nat.add_zero]
    rw [if_neg]
    omega
  | cons b bs ih =>
    simp only [writeBytes, List.length_cons]
    rw [ih]
    by_cases c1 : p + 1 ≤ q ∧ q < p + 1 + bs.length
    · rw [if_pos c1, if_pos (by omega)]
      have h : q - p = (q - (p + 1)) + 1 := by omega
      rw [h, List.getD_cons_succ]
    · rw [if_neg c1]
      by_cases c2 : p ≤ q ∧ q < p + (bs.length + 1)
      · have hq : q = p := by omega
        subst hq
        rw [if_pos c2]
        simp [writeMem]
      · have hq : q ≠ p := by
          intro h
          exact c2 (by omega)
        rw [if_neg c2]
        simp [writeMem, hq]

theorem backCopy_ge (slen i : Nat) (mem : Nat → Nat) (q : Nat) (h : i ≤ q) :
    backCopy slen i mem q = mem q := by
  induction i generalizing mem with
  | zero => rfl
  | succ i ih =>
    simp only [backCopy]
    rw [ih _ (by omega)]
    simp only [writeMem]
    rw [if_neg (by omega)]

theorem backCopy_fill (slen m : Nat) (hs : 0 < slen) (str : List Nat) :
    ∀ (i : Nat) (mem : Nat → Nat), i + slen ≤ m →
      (∀ q, i ≤ q → q < m → mem q = str.getD (q % slen) 0) →
      ∀ q, q < m → backCopy slen i mem q = str.getD (q % slen) 0 := by
  intro i
  induction i with
  | zero =>
    intro mem _ hpre q hq
    exact hpre q (Nat.zero_le q) hq
  | succ i ih =>
    intro mem hm hpre q hq
    simp only [backCopy]
    apply ih _ (by omega) _ q hq
    intro r hr1 hr2
    by_cases hri : r = i
    · subst hri
      have h2 : mem (r + slen) = str.getD (r % slen) 0 := by
        rw [hpre (r + slen) (by omega) (by omega), Nat.add_mod_right]
      simp [writeMem, h2]
    · simp only [writeMem]
      rw [if_neg hri]
      exact hpre r (by omega) hr2

theorem clampCount_le (n : Int) : clampCount n ≤ 64 := by
  unfold clampCount
  split_ifs <;> omega

theorem clampCount_pos (n : Int) (h : 0 < n) : 1 ≤ clampCount n := by
  unfold clampCount
  split_ifs <;> omega

/-- Full characterization of a positive-count `string_repeat` call: the first
`clampCount n * str.length` bytes hold the repeated glyph, the next byte is
the NUL terminator, and every byte beyond that is untouched. -/
theorem string_repeat_spec (dest : Nat → Nat) (str : List Nat) (hs : 0 < str.length)
    (n : Int) (hn : 0 < n) :
    (∀ j, j < clampCount n * str.length →
        string_repeat dest str n j = str.getD (j % str.length) 0) ∧
    string_repeat dest str n (clampCount n * str.length) = 0 ∧
    (∀ q, clampCount n * str.length < q → string_repeat dest str n q = dest q) := by
  have hC : clampCount n = if 64 ≤ n then 64 else n.toNat := by
    rw [clampCount, if_neg (by omega)]
  rw [string_repeat, if_neg (by omega : ¬ n ≤ 0)]
  set N : Nat := if 64 ≤ n then (64 : Nat) else n.toNat with hN
  rw [hC]
  have hN1 : 1 ≤ N := by
    rw [hN]
    split_ifs <;> omega
  set slen := str.length with hslen
  have hsub : (N - 1) * slen = N * slen - slen := Nat.sub_one_mul N slen
  have hle : slen ≤ N * slen := Nat.le_mul_of_pos_left slen hN1
  have hi0 : (N - 1) * slen + slen = N * slen := by omega
  have hpre : ∀ q, (N - 1) * slen ≤ q → q < N * slen →
      writeBytes dest ((N - 1) * slen) (str ++ [0]) q = str.getD (q % slen) 0 := by
    intro q h1 h2
    rw [writeBytes_spec, if_pos (by simp only [List.length_append, List.length_singleton]; omega)]
    have hqlt : q - (N - 1) * slen < slen := by omega
    have hmod : q % slen = q - (N - 1) * slen := by
      conv_lhs => rw [show q = (q - (N - 1) * slen) + (N - 1) * slen by omega]
      rw [Nat.add_mul_mod_self_right, Nat.mod_eq_of_lt hqlt]
    rw [hmod, List.getD_append _ _ _ _ (by omega)]
  refine ⟨?_, ?_, ?_⟩
  · intro j hj
    exact backCopy_fill slen (N * slen) hs str ((N - 1) * slen) _ (by omega) hpre j hj
  · rw [backCopy_ge _ _ _ _ (by omega)]
    rw [writeBytes_spec, if_pos (by simp only [List.length_append, List.length_singleton]; omega)]
    rw [show N * slen - (N - 1) * slen = slen by omega]
    rw [List.getD_append_right _ _ _ _ (by omega)]
    simp
  · intro q hq
    rw [backCopy_ge _ _ _ _ (by omega)]
    rw [writeBytes_spec, if_neg (by simp only [List.length_append, List.length_singleton]; omega)]

theorem flatten_replicate_length (str : List Nat) (k : Nat) :
    (List.replicate k str).flatten.length = k * str.length := by
  induction k with
  | zero => simp
  | succ k ih =>
    simp only [List.replicate_succ, List.flatten_cons, List.length_append, ih]
    ring

theorem flatten_replicate_getD (str : List Nat) (k j : Nat)
    (hj : j < k * str.length) :
    (List.replicate k str).flatten.getD j 0 = str.getD (j % str.length) 0 := by
  induction k generalizing j with
  | zero => omega
  | succ k ih =>
    simp only [List.replicate_succ, List.flatten_cons]
    by_cases h : j < str.length
    · rw [List.getD_append _ _ _ _ h, Nat.mod_eq_of_lt h]
    · have hmul : (k + 1) * str.length = k * str.length + str.length := Nat.succ_mul k str.length
      have hj2 : j - str.length < k * str.length := by omega
      rw [List.getD_append_right _ _ _ _ (by omega)]
      rw [ih _ hj2]
      conv_rhs => rw [Nat.mod_eq_sub_mod (by omega : str.length ≤ j)]

theorem cstrAux_of_mem (bs : List Nat) :
    ∀ (mem : Nat → Nat) (start fuel : Nat),
      (∀ j, j < bs.length → mem (start + j) = bs.getD j 0) →
      mem (start + bs.length) = 0 →
      (∀ b ∈ bs, b ≠ 0) →
      bs.length < fuel →
      cstrAux mem start fuel = bs := by
  induction bs with
  | nil =>
    intro mem start fuel _ hterm _ hfuel
    cases fuel with
    | zero => omega
    | succ f =>
      simp only [cstrAux]
      rw [if_pos (by simpa using hterm)]
  | cons b bs ih =>
    intro mem start fuel hbytes hterm hnz hfuel
    cases fuel with
    | zero => simp at hfuel
    | succ f =>
      simp only [cstrAux]
      have hb : mem start = b := by simpa using hbytes 0 (by simp)
      rw [if_neg (by rw [hb]; exact hnz b (List.mem_cons_self b bs))]
      rw [hb]
      congr 1
      apply ih
      · intro j hj
        have h2 := hbytes (j + 1) (by simp only [List.length_cons]; omega)
        rw [List.getD_cons_succ] at h2
        rw [show start + 1 + j = start + (j + 1) from by omega]
        exact h2
      · have h2 := hterm
        simp only [List.length_cons] at h2
        rw [show start + 1 + bs.length = start + (bs.length + 1) from by omega]
        exact h2
      · intro x hx
        exact hnz x (List.mem_cons_of_mem _ hx)
      · simp only [List.length_cons] at hfuel
        omega

theorem textOf_writeNul (mem : Nat → Nat) : textOf (writeBytes mem 0 [0]) = [] := by
  rw [textOf]
  apply cstrAux_of_mem []
  · intro j hj
    simp at hj
  · rw [writeBytes_spec]
    simp
  · intro b hb
    simp at hb
  · norm_num

/-- The C string left in the text buffer by the
`strcpy(text, ""); string_repeat(text, "•", k)` sequence: exactly
`clampCount k` copies of the dot glyph, independently of the junk the buffer
held before. -/
theorem textOf_repeat (mem : Nat → Nat) (k : Int) :
    textOf (string_repeat (writeBytes mem 0 [0]) bullet k) =
      (List.replicate (clampCount k) bullet).flatten := by
  by_cases hk : k ≤ 0
  · rw [string_repeat, if_pos hk, clampCount, if_pos hk]
    simp [textOf_writeNul]
  · push_neg at hk
    have hs : 0 < bullet.length := by norm_num [bullet]
    obtain ⟨h1, h2, h3⟩ := string_repeat_spec (writeBytes mem 0 [0]) bullet hs k hk
    rw [textOf]
    apply cstrAux_of_mem
    · intro j hj
      rw [flatten_replicate_length] at hj
      rw [Nat.zero_add, h1 j hj, flatten_replicate_getD bullet _ j hj]
    · rw [Nat.zero_add, flatten_replicate_length]
      exact h2
    · intro b hb
      rcases List.mem_flatten.mp hb with ⟨l, hl, hbl⟩
      have hlb : l = bullet := List.eq_of_mem_replicate hl
      subst hlb
      simp only [bullet, List.mem_cons, List.mem_singleton, List.not_mem_nil, or_false] at hbl
      rcases hbl with rfl | rfl | rfl <;> omega
    · have hb3 : bullet.length = 3 := by norm_num [bullet]
      rw [flatten_replicate_length, hb3]
      have := clampCount_le k
      omega

/-- The C string produced by lines 157–163, for every auth state: the chosen
count source is `last_input_position` on `STATE_AUTH_WRONG` and
`STATE_I3LOCK_LOCK_FAILED`, `input_position` otherwise. -/
theorem textOf_indicatorText (auth : auth_state_t) (input last : Int) (mem : Nat → Nat) :
    textOf (indicatorText auth input last mem) =
      (List.replicate
        (clampCount
          (if auth = STATE_AUTH_WRONG ∨ auth = STATE_I3LOCK_LOCK_FAILED
           then last else input))
        bullet).flatten := by
  rw [indicatorText]
  split_ifs with h
  · exact textOf_repeat mem last
  · exact textOf_repeat mem input

/-- Evaluation of `draw_image` when the indicator overlay is skipped. -/
theorem draw_image_not_shown (s : RenderState) (mem : Nat → Nat)
    (h : ¬(s.unlock_indicator ∧
      (STATE_KEY_PRESSED.code ≤ s.unlock_state.code ∨
        STATE_AUTH_IDLE.code < s.auth_state.code))) :
    draw_image s mem =
      ({ resolution := s.last_resolution, bg := parseColor s.color,
         image := if s.img then some s.tile else none, overlay := none },
       s.last_input_position) := by
  rw [draw_image, if_neg h]

/-- Full description of one `draw_image` call when the overlay condition
holds: the frame it paints and the updated `last_input_position`, with the
glyph text and text color written out per auth state. -/
theorem draw_image_shown (s : RenderState) (mem : Nat → Nat)
    (h1 : s.unlock_indicator = true)
    (h2 : STATE_KEY_PRESSED.code ≤ s.unlock_state.code ∨
      STATE_AUTH_IDLE.code < s.auth_state.code) :
    draw_image s mem =
      ({ resolution := s.last_resolution,
         bg := parseColor s.color,
         image := if s.img then some s.tile else none,
         overlay := some
           { scale := s.dpi / 96,
             text := if s.auth_state = STATE_AUTH_IDLE ∧
                        s.unlock_state = STATE_NOTHING_TO_DELETE
                     then []
                     else (List.replicate (clampCount
                       (if s.auth_state = STATE_AUTH_WRONG ∨
                           s.auth_state = STATE_I3LOCK_LOCK_FAILED
                        then (if 0 < s.input_position then s.input_position
                              else s.last_input_position)
                        else s.input_position)) bullet).flatten,
             text_color := if s.auth_state = STATE_AUTH_VERIFY ∨
                              s.auth_state = STATE_AUTH_LOCK
                           then (84 / 255, 110 / 255, 122 / 255)
                           else if (s.auth_state = STATE_AUTH_WRONG ∧
                                     s.unlock_state.code < STATE_KEY_PRESSED.code) ∨
                                   s.auth_state = STATE_I3LOCK_LOCK_FAILED
                           then (255 / 255, 83 / 255, 112 / 255)
                           else (1, 1, 1),
             center := (resolvePlacement s.xr_resolutions s.show_on_screen s.last_resolution).1,
             offset := (resolvePlacement s.xr_resolutions s.show_on_screen s.last_resolution).2 } },
       if 0 < s.input_position then s.input_position else s.last_input_position) := by
  obtain ⟨ip, lip, us, as_, ui, sos, lr, xr, col, im, ti, dp⟩ := s
  simp only at h1 h2 ⊢
  subst h1
  rw [draw_image, if_pos ⟨rfl, h2⟩]
  cases as_ with
  | STATE_AUTH_IDLE =>
    by_cases hus : us = STATE_NOTHING_TO_DELETE
    · subst hus
      simp [textOf_writeNul]
    · simp [hus, textOf_indicatorText]
  | STATE_AUTH_VERIFY => simp [textOf_indicatorText]
  | STATE_AUTH_LOCK => simp [textOf_indicatorText]
  | STATE_AUTH_WRONG =>
    by_cases hus : us.code < STATE_KEY_PRESSED.code
    · simp [hus, textOf_indicatorText]
    · simp [hus, textOf_indicatorText]
  | STATE_I3LOCK_LOCK_FAILED => simp [textOf_indicatorText]

/-- The new `last_input_position` produced by a `draw_image` call. -/
theorem draw_image_last (s : RenderState) (mem : Nat → Nat) :
    (draw_image s mem).2 =
      if s.unlock_indicator ∧
          (STATE_KEY_PRESSED.code ≤ s.unlock_state.code ∨
            STATE_AUTH_IDLE.code < s.auth_state.code)
      then (if 0 < s.input_position then s.input_position else s.last_input_position)
      else s.last_input_position := by
  by_cases h : s.unlock_indicator ∧
      (STATE_KEY_PRESSED.code ≤ s.unlock_state.code ∨
        STATE_AUTH_IDLE.code < s.auth_state.code)
  · rw [draw_image_shown s mem h.1 h.2, if_pos h]
  · rw [draw_image_not_shown s mem h, if_neg h]

/-- Re-running `draw_image` on the state it left behind reproduces the same
frame and the same `last_input_position`, whatever junk the freshly
`malloc`ed text buffer holds each time. -/
theorem draw_image_stable (s : RenderState) (mem1 mem2 : Nat → Nat) :
    draw_image { s with last_input_position := (draw_image s mem1).2 } mem2 =
      draw_image s mem1 := by
  obtain ⟨ip, lip, us, as_, ui, sos, lr, xr, col, im, ti, dp⟩ := s
  by_cases h : (ui = true) ∧
      (STATE_KEY_PRESSED.code ≤ us.code ∨ STATE_AUTH_IDLE.code < as_.code)
  · rw [draw_image_shown ⟨ip, lip, us, as_, ui, sos, lr, xr, col, im, ti, dp⟩ mem1 h.1 h.2]
    rw [draw_image_shown _ mem2 h.1 h.2]
    by_cases hip : 0 < ip
    · simp [hip]
    · simp [hip]
  · rw [draw_image_not_shown ⟨ip, lip, us, as_, ui, sos, lr, xr, col, im, ti, dp⟩ mem1 h]
    rw [draw_image_not_shown _ mem2 h]

/-! ### Claim theorems -/

/-- Claim C1: whenever the indicator overlay is drawn, the glyph count fed to
the glyph-sequence builder comes from the remembered `last_input_position`
when the auth state is `STATE_AUTH_WRONG` or `STATE_I3LOCK_LOCK_FAILED`, and
from the live `input_position` otherwise; and in the scenario
`auth_state = STATE_AUTH_WRONG`, `unlock_state = STATE_KEY_PRESSED`,
`input_position = 0`, `last_input_position = 4`, the renderer draws exactly
4 dot glyphs and selects the white text color `(1, 1, 1)`, which is not the
red one. -/
theorem C1_glyph_count_source :
    (∀ (auth : auth_state_t) (input last : Int) (mem : Nat → Nat),
      ((auth = STATE_AUTH_WRONG ∨ auth = STATE_I3LOCK_LOCK_FAILED) →
        textOf (indicatorText auth input last mem) =
          (List.replicate (clampCount last) bullet).flatten) ∧
      (¬(auth = STATE_AUTH_WRONG ∨ auth = STATE_I3LOCK_LOCK_FAILED) →
        textOf (indicatorText auth input last mem) =
          (List.replicate (clampCount input) bullet).flatten)) ∧
    (∀ (sos : Int) (lr : Nat × Nat) (xr : List Rect) (col : List Nat)
       (im ti : Bool) (dp : ℚ) (mem : Nat → Nat),
      frameGlyphs (draw_image ⟨0, 4, STATE_KEY_PRESSED, STATE_AUTH_WRONG, true,
          sos, lr, xr, col, im, ti, dp⟩ mem).1 = (List.replicate 4 bullet).flatten ∧
      frameTextColor (draw_image ⟨0, 4, STATE_KEY_PRESSED, STATE_AUTH_WRONG, true,
          sos, lr, xr, col, im, ti, dp⟩ mem).1 = some (1, 1, 1) ∧
      ((1 : ℚ), (1 : ℚ), (1 : ℚ)) ≠ ((255 : ℚ) / 255, (83 : ℚ) / 255, (112 : ℚ) / 255)) := by
  constructor
  · intro auth input last mem
    constructor
    · intro h
      rw [textOf_indicatorText, if_pos h]
    · intro h
      rw [textOf_indicatorText, if_neg h]
  · intro sos lr xr col im ti dp mem
    rw [draw_image_shown _ mem rfl (Or.inl (by norm_num [unlock_state_t.code]))]
    refine ⟨?_, ?_, by norm_num [Prod.ext_iff]⟩
    · simp [frameGlyphs, clampCount]
    · simp [frameTextColor, unlock_state_t.code]

/-- Witness for C1 at concrete inputs. -/
theorem C1_glyph_count_source_witness :
    textOf (indicatorText STATE_AUTH_WRONG 0 4 (fun _ => 9)) =
      (List.replicate (clampCount 4) bullet).flatten ∧
    frameGlyphs (draw_image ⟨0, 4, STATE_KEY_PRESSED, STATE_AUTH_WRONG, true,
        (-1), (800, 600), [], [102, 102, 102, 102, 102, 102], false, false, 96⟩
        (fun _ => 9)).1 = (List.replicate 4 bullet).flatten :=
  ⟨(C1_glyph_count_source.1 STATE_AUTH_WRONG 0 4 (fun _ => 9)).1 (Or.inl rfl),
   (C1_glyph_count_source.2 (-1) (800, 600) [] [102, 102, 102, 102, 102, 102]
      false false 96 (fun _ => 9)).1⟩

/-- Claim C2: `last_input_position` is only ever given a new value when
`input_position` is strictly positive and it is never implicitly reset;
across successive renders whose input lengths are 5, 0, 0, 3 the values it
takes are 5, 5, 5, 3. -/
theorem C2_last_input_monotonic :
    (∀ (s : RenderState) (mem : Nat → Nat),
      (draw_image s mem).2 = s.last_input_position ∨
      (0 < s.input_position ∧ (draw_image s mem).2 = s.input_position)) ∧
    (∀ (lip sos : Int) (lr : Nat × Nat) (xr : List Rect) (col : List Nat)
       (im ti : Bool) (dp : ℚ) (mem : Nat → Nat),
      let st : Int → Int → RenderState := fun ip last =>
        ⟨ip, last, STATE_KEY_PRESSED, STATE_AUTH_IDLE, true, sos, lr, xr, col, im, ti, dp⟩
      let l1 := (draw_image (st 5 lip) mem).2
      let l2 := (draw_image (st 0 l1) mem).2
      let l3 := (draw_image (st 0 l2) mem).2
      let l4 := (draw_image (st 3 l3) mem).2
      [l1, l2, l3, l4] = [5, 5, 5, 3]) := by
  constructor
  · intro s mem
    rw [draw_image_last]
    split_ifs with h h2
    · exact Or.inr ⟨h2, rfl⟩
    · exact Or.inl rfl
    · exact Or.inl rfl
  · intro lip sos lr xr col im ti dp mem
    simp only [draw_image_last, unlock_state_t.code, auth_state_t.code]
    norm_num

/-- Claim C3: with `auth_state = STATE_AUTH_IDLE`,
`unlock_state = STATE_NOTHING_TO_DELETE` and `input_position = 0`, the
renderer draws zero glyphs, whatever `last_input_position` holds. -/
theorem C3_nothing_to_delete_empty :
    ∀ (lip sos : Int) (lr : Nat × Nat) (xr : List Rect) (col : List Nat)
      (im ti : Bool) (dp : ℚ) (mem : Nat → Nat),
      frameGlyphs (draw_image ⟨0, lip, STATE_NOTHING_TO_DELETE, STATE_AUTH_IDLE, true,
        sos, lr, xr, col, im, ti, dp⟩ mem).1 = [] := by
  intro lip sos lr xr col im ti dp mem
  rw [draw_image_shown _ mem rfl (Or.inl (by norm_num [unlock_state_t.code]))]
  simp [frameGlyphs]

/-- Claim C4: for every glyph string and repeat count `n`, `string_repeat`
writes nothing (and the call-site buffer reads back as the empty string) when
`n ≤ 0`; otherwise it lays down exactly `clampCount n` byte-for-byte copies
of the glyph followed by a NUL and touches nothing else, where
`clampCount n = 64` for `n > 64` and `clampCount n = n` for `0 < n ≤ 64`. -/
theorem C4_string_repeat (str : List Nat) (n : Int) (dest : Nat → Nat)
    (hs : 0 < str.length) :
    (n ≤ 0 →
      (∀ q, string_repeat dest str n q = dest q) ∧
      textOf (string_repeat (writeBytes dest 0 [0]) str n) = []) ∧
    (0 < n →
      (∀ j, j < clampCount n * str.length →
        string_repeat dest str n j = ((List.replicate (clampCount n) str).flatten).getD j 0) ∧
      string_repeat dest str n (clampCount n * str.length) = 0 ∧
      (∀ q, clampCount n * str.length < q → string_repeat dest str n q = dest q) ∧
      (64 < n → clampCount n = 64) ∧
      (n ≤ 64 → clampCount n = n.toNat)) := by
  constructor
  · intro h
    constructor
    · intro q
      rw [string_repeat, if_pos h]
    · rw [string_repeat, if_pos h, textOf_writeNul]
  · intro h
    obtain ⟨h1, h2, h3⟩ := string_repeat_spec dest str hs n h
    refine ⟨?_, h2, h3, ?_, ?_⟩
    · intro j hj
      rw [h1 j hj, flatten_replicate_getD str (clampCount n) j hj]
    · intro h64
      rw [clampCount, if_neg (by omega), if_pos (by omega)]
    · intro h64
      rw [clampCount, if_neg (by omega)]
      by_cases he : (64 : Int) ≤ n
      · rw [if_pos he]
        omega
      · rw [if_neg he]

/-- Witness for C4 with a two-byte glyph and count 3. -/
theorem C4_string_repeat_witness :
    string_repeat (fun _ => 9) [194, 183] 3 2 =
      ((List.replicate (clampCount 3) [194, 183]).flatten).getD 2 0 ∧
    string_repeat (fun _ => 9) [194, 183] 3 (clampCount 3 * 2) = 0 ∧
    textOf (string_repeat (writeBytes (fun _ => 9) 0 [0]) [194, 183] (-1)) = [] := by
  have h := C4_string_repeat [194, 183] 3 (fun _ => 9) (by norm_num)
  have h0 := C4_string_repeat [194, 183] (-1) (fun _ => 9) (by norm_num)
  obtain ⟨ha, hb, -⟩ := h.2 (by norm_num)
  exact ⟨ha 2 (by norm_num [clampCount]), hb, (h0.1 (by norm_num)).2⟩

/-- Claim C5: the pixmap cache is the two-state machine of
`redraw_screen`/`free_bg_pixmap`: an empty handle makes `redraw_screen`
allocate at the current resolution; an allocated handle is reused unchanged
with no size check; `free_bg_pixmap` always resets the handle to empty
(safely so when it already is); and after invalidation the next redraw
allocates at the new resolution `1024 × 768`. -/
theorem C5_pixmap_cache :
    (∀ (s : RenderState) (mem : Nat → Nat),
      (redraw_screen none s mem).1 = some ⟨s.last_resolution.1, s.last_resolution.2⟩) ∧
    (∀ (p : Pixmap) (s : RenderState) (mem : Nat → Nat),
      (redraw_screen (some p) s mem).1 = some p) ∧
    (∀ bg_pixmap : Option Pixmap, free_bg_pixmap bg_pixmap = none) ∧
    (∀ (s : RenderState) (mem : Nat → Nat),
      (redraw_screen (free_bg_pixmap (some ⟨800, 600⟩))
        { s with last_resolution := (1024, 768) } mem).1 = some ⟨1024, 768⟩) :=
  ⟨fun _ _ => rfl, fun _ _ _ => rfl, fun _ => rfl, fun _ _ => rfl⟩

/-- Claim C6: the screen placement resolver is a pure function of the
topology, the selected index and the fallback resolution: empty topology
gives the root-window center with offset `(0, 0)`; an in-range index gives
that screen's center and offset; a negative or out-of-range index gives
screen 0's center and offset. -/
theorem C6_placement (xr : List Rect) (idx : Int) (res : Nat × Nat) :
    (xr = [] →
      resolvePlacement xr idx res = ((res.1 / 2, res.2 / 2), (0, 0))) ∧
    (xr ≠ [] →
      (0 ≤ idx → idx < xr.length →
        resolvePlacement xr idx res =
          (((xr.getD idx.toNat ⟨0, 0, 0, 0⟩).width / 2,
            (xr.getD idx.toNat ⟨0, 0, 0, 0⟩).height / 2),
           ((xr.getD idx.toNat ⟨0, 0, 0, 0⟩).x, (xr.getD idx.toNat ⟨0, 0, 0, 0⟩).y))) ∧
      ((idx < 0 ∨ (xr.length : Int) ≤ idx) →
        resolvePlacement xr idx res =
          (((xr.getD 0 ⟨0, 0, 0, 0⟩).width / 2, (xr.getD 0 ⟨0, 0, 0, 0⟩).height / 2),
           ((xr.getD 0 ⟨0, 0, 0, 0⟩).x, (xr.getD 0 ⟨0, 0, 0, 0⟩).y)))) := by
  constructor
  · intro h
    subst h
    rw [resolvePlacement, if_neg (by simp)]
  · intro h
    have hlen : 0 < xr.length := List.length_pos.mpr h
    constructor
    · intro h0 hlt
      rw [resolvePlacement, if_pos hlen]
      rw [if_pos ⟨h0, hlt⟩]
    · intro hout
      rw [resolvePlacement, if_pos hlen]
      rw [if_neg (by omega)]

/-- Witness for C6 on a concrete two-screen topology. -/
theorem C6_placement_witness :
    resolvePlacement [⟨5, 7, 100, 50⟩, ⟨30, 40, 640, 480⟩] 1 (800, 600) =
      ((320, 240), (30, 40)) ∧
    resolvePlacement [⟨5, 7, 100, 50⟩, ⟨30, 40, 640, 480⟩] 7 (800, 600) =
      ((50, 25), (5, 7)) ∧
    resolvePlacement [] 1 (800, 600) = ((400, 300), (0, 0)) := by
  refine ⟨?_, ?_, ?_⟩
  · have h := (C6_placement [⟨5, 7, 100, 50⟩, ⟨30, 40, 640, 480⟩] 1 (800, 600)).2
      (by simp) |>.1 (by norm_num) (by norm_num)
    rw [h]
    rfl
  · have h := (C6_placement [⟨5, 7, 100, 50⟩, ⟨30, 40, 640, 480⟩] 7 (800, 600)).2
      (by simp) |>.2 (by norm_num)
    rw [h]
    rfl
  · have h := (C6_placement [] 1 (800, 600)).1 rfl
    rw [h]
    rfl

/-- Claim C7: `redraw_screen` is idempotent — run once from any cache state
and any shared state, then run again on the resulting cache handle and
resulting `last_input_position` with everything else unchanged, and the
second run returns the same handle, paints bit-for-bit the same frame, and
leaves the same `last_input_position`, independently of the junk in each
call's freshly allocated text buffer. -/
theorem C7_redraw_idempotent (bg_pixmap : Option Pixmap) (s : RenderState)
    (mem1 mem2 : Nat → Nat) :
    redraw_screen (redraw_screen bg_pixmap s mem1).1
        { s with last_input_position := (redraw_screen bg_pixmap s mem1).2.2 } mem2 =
      redraw_screen bg_pixmap s mem1 := by
  have hstable := draw_image_stable s mem1 mem2
  cases bg_pixmap with
  | none =>
    simp only [redraw_screen] at hstable ⊢
    rw [hstable]
  | some p =>
    simp only [redraw_screen] at hstable ⊢
    rw [hstable]

/-- Claim C8: on a valid 6-hex-digit color string the parser yields three
fractions in `[0, 1]`, and multiplying each back by 255 and rounding
recovers the two-digit group's integer value. -/
theorem C8_color_roundtrip (color : List Nat) (h6 : color.length = 6)
    (hhex : ∀ c ∈ color, isHexDigit c) :
    (0 ≤ (parseColor color).1 ∧ (parseColor color).1 ≤ 1) ∧
    (0 ≤ (parseColor color).2.1 ∧ (parseColor color).2.1 ≤ 1) ∧
    (0 ≤ (parseColor color).2.2 ∧ (parseColor color).2.2 ≤ 1) ∧
    round ((parseColor color).1 * 255) = parseGroup (color.getD 0 0) (color.getD 1 0) ∧
    round ((parseColor color).2.1 * 255) = parseGroup (color.getD 2 0) (color.getD 3 0) ∧
    round ((parseColor color).2.2 * 255) = parseGroup (color.getD 4 0) (color.getD 5 0) := by
  have hdig : ∀ c, isHexDigit c → hexDigitVal c ≤ 15 := by
    intro c hc
    rw [hexDigitVal]
    rcases hc with h | h | h
    · rw [if_pos h]; omega
    · rw [if_neg (by omega), if_pos h]; omega
    · rw [if_neg (by omega), if_neg (by omega), if_pos h]; omega
  have hmem : ∀ i, i < 6 → color.getD i 0 ∈ color := by
    intro i hi
    rw [List.getD_eq_getElem color 0 (by omega)]
    exact List.getElem_mem _
  have hgrp : ∀ i j, i < 6 → j < 6 →
      parseGroup (color.getD i 0) (color.getD j 0) ≤ 255 := by
    intro i j hi hj
    have h1 := hdig _ (hhex _ (hmem i hi))
    have h2 := hdig _ (hhex _ (hmem j hj))
    rw [parseGroup]
    omega
  have hfrac : ∀ i j, i < 6 → j < 6 →
      (0 ≤ (parseGroup (color.getD i 0) (color.getD j 0) : ℚ) / 255 ∧
        (parseGroup (color.getD i 0) (color.getD j 0) : ℚ) / 255 ≤ 1) ∧
      round ((parseGroup (color.getD i 0) (color.getD j 0) : ℚ) / 255 * 255) =
        parseGroup (color.getD i 0) (color.getD j 0) := by
    intro i j hi hj
    have hb := hgrp i j hi hj
    constructor
    · constructor
      · positivity
      · rw [div_le_one (by norm_num)]
        exact_mod_cast hb
    · rw [div_mul_cancel₀ _ (by norm_num : (255 : ℚ) ≠ 0)]
      exact round_natCast _
  refine ⟨((hfrac 0 1 (by omega) (by omega)).1), ((hfrac 2 3 (by omega) (by omega)).1),
    ((hfrac 4 5 (by omega) (by omega)).1), ((hfrac 0 1 (by omega) (by omega)).2),
    ((hfrac 2 3 (by omega) (by omega)).2), ((hfrac 4 5 (by omega) (by omega)).2)⟩

/-- Witness for C8 on the color string `"ff7f00"`. -/
theorem C8_color_roundtrip_witness :
    (0 ≤ (parseColor [102, 102, 55, 102, 48, 48]).1 ∧
      (parseColor [102, 102, 55, 102, 48, 48]).1 ≤ 1) ∧
    (0 ≤ (parseColor [102, 102, 55, 102, 48, 48]).2.1 ∧
      (parseColor [102, 102, 55, 102, 48, 48]).2.1 ≤ 1) ∧
    (0 ≤ (parseColor [102, 102, 55, 102, 48, 48]).2.2 ∧
      (parseColor [102, 102, 55, 102, 48, 48]).2.2 ≤ 1) ∧
    round ((parseColor [102, 102, 55, 102, 48, 48]).1 * 255) = parseGroup 102 102 ∧
    round ((parseColor [102, 102, 55, 102, 48, 48]).2.1 * 255) = parseGroup 55 102 ∧
    round ((parseColor [102, 102, 55, 102, 48, 48]).2.2 * 255) = parseGroup 48 48 :=
  C8_color_roundtrip [102, 102, 55, 102, 48, 48] rfl (by decide)

/-- Claim C9: the dot glyph is 3 UTF-8 bytes, so the 64-repetition clamp
bounds everything `string_repeat` ever writes into the renderer's text
buffer by the first `64 * 3 + 1 = 193` bytes — within the 256 allocated:
every byte from offset 193 on is untouched for every count. -/
theorem C9_text_buffer_safe :
    bullet.length = 3 ∧ 64 * bullet.length + 1 = 193 ∧ 193 ≤ 256 ∧
    ∀ (n : Int) (dest : Nat → Nat) (q : Nat), 193 ≤ q →
      string_repeat dest bullet n q = dest q := by
  refine ⟨rfl, rfl, by norm_num, ?_⟩
  intro n dest q hq
  by_cases hn : n ≤ 0
  · rw [string_repeat, if_pos hn]
  · obtain ⟨-, -, h3⟩ := string_repeat_spec dest bullet (by norm_num [bullet]) n (by omega)
    apply h3
    have hc := clampCount_le n
    have hb : bullet.length = 3 := rfl
    rw [hb]
    omega

/-- Witness for C9 at count 1000 and offset 200. -/
theorem C9_text_buffer_safe_witness :
    string_repeat (fun _ => 5) bullet 1000 200 = 5 :=
  C9_text_buffer_safe.2.2.2 1000 (fun _ => 5) 200 (by norm_num)

/-- Claim C10: for every `n ≤ 0`, `string_repeat` leaves the destination
buffer byte-for-byte unchanged — it writes nothing, not even a NUL — so the
empty glyph sequence at the call site exists only because `draw_image` first
sets the buffer to the empty string. -/
theorem C10_noop_on_nonpositive :
    (∀ (dest : Nat → Nat) (str : List Nat) (n : Int), n ≤ 0 →
      string_repeat dest str n = dest) ∧
    (∀ (auth : auth_state_t) (input last : Int) (mem : Nat → Nat),
      input ≤ 0 → ¬(auth = STATE_AUTH_WRONG ∨ auth = STATE_I3LOCK_LOCK_FAILED) →
      textOf (indicatorText auth input last mem) = []) := by
  constructor
  · intro dest str n h
    rw [string_repeat, if_pos h]
  · intro auth input last mem hin hauth
    rw [indicatorText]
    rw [if_neg hauth]
    rw [string_repeat, if_pos hin, textOf_writeNul]

/-- Witness for C10: an untouched junk buffer for `n = -2`, and the empty
call-site result for a zero input length. -/
theorem C10_noop_on_nonpositive_witness :
    string_repeat (fun q => q + 1) [7] (-2) = (fun q => q + 1) ∧
    textOf (indicatorText STATE_AUTH_IDLE 0 5 (fun _ => 9)) = [] :=
  ⟨C10_noop_on_nonpositive.1 (fun q => q + 1) [7] (-2) (by norm_num),
   C10_noop_on_nonpositive.2 STATE_AUTH_IDLE 0 5 (fun _ => 9) (by norm_num)
     (by simp)⟩

end I3lock
